import Mathlib

/-!
Verification of the URL-construction and caching subsystem of an ESPN
scraping library.  The Python source (`espn_scraper/__init__.py`) is shallowly
embedded: strings become `List Char`, Python string primitives (`in`,
`startswith`, `endswith`, `split`, `replace`, `str(int)`) become executable
Lean functions, filesystem and network effects become explicit state passing,
and functions that raise become `Except`-valued functions.
-/

set_option maxHeartbeats 1000000

namespace EspnScraper

/-! ## Python string primitives over `List Char` -/

/-- Prefix test on character lists; models Python `s.startswith(p)`. -/
def hasPrefixL : List Char → List Char → Bool
  | [], _ => true
  | _ :: _, [] => false
  | c :: p, d :: s => (c == d) && hasPrefixL p s

/-- Substring test scanning every start position; models the Python `in`
operator on strings. -/
def containsSub (p : List Char) : List Char → Bool
  | [] => hasPrefixL p []
  | x :: t => hasPrefixL p (x :: t) || containsSub p t

/-- Suffix test on character lists; models Python `s.endswith(p)`. -/
def hasSuffixL (p s : List Char) : Bool :=
  hasPrefixL p.reverse s.reverse

theorem hasPrefixL_refl (p : List Char) : hasPrefixL p p = true := by
  induction p with
  | nil => rfl
  | cons c t ih => simp [hasPrefixL, ih]

theorem hasPrefixL_append_right {p s : List Char} (t : List Char)
    (h : hasPrefixL p s = true) : hasPrefixL p (s ++ t) = true := by
  induction p generalizing s with
  | nil => rfl
  | cons c q ih =>
    cases s with
    | nil => simp [hasPrefixL] at h
    | cons d s' =>
      simp [hasPrefixL] at h ⊢
      exact ⟨h.1, ih h.2⟩

theorem hasPrefixL_self_append (p b : List Char) :
    hasPrefixL p (p ++ b) = true :=
  hasPrefixL_append_right b (hasPrefixL_refl p)

theorem hasPrefixL_length {p s : List Char} (h : hasPrefixL p s = true) :
    p.length ≤ s.length := by
  induction p generalizing s with
  | nil => simp
  | cons c q ih =>
    cases s with
    | nil => simp [hasPrefixL] at h
    | cons d s' =>
      simp [hasPrefixL] at h
      simpa using ih h.2

theorem take_of_hasPrefixL {p s : List Char} (h : hasPrefixL p s = true) :
    s.take p.length = p := by
  induction p generalizing s with
  | nil => simp
  | cons c q ih =>
    cases s with
    | nil => simp [hasPrefixL] at h
    | cons d s' =>
      simp [hasPrefixL] at h
      simp [List.take, ih h.2, h.1.symm]

theorem hasPrefixL_mem {p s : List Char} (h : hasPrefixL p s = true) :
    ∀ c ∈ p, c ∈ s := by
  induction p generalizing s with
  | nil => simp
  | cons c q ih =>
    cases s with
    | nil => simp [hasPrefixL] at h
    | cons d s' =>
      simp [hasPrefixL] at h
      intro x hx
      rcases List.mem_cons.1 hx with hx | hx
      · subst hx; simp [h.1]
      · exact List.mem_cons_of_mem _ (ih h.2 x hx)

theorem hasPrefixL_cons_head {c : Char} {q s : List Char}
    (h : hasPrefixL (c :: q) s = true) : ∃ t, s = c :: t := by
  cases s with
  | nil => simp [hasPrefixL] at h
  | cons d s' =>
    simp [hasPrefixL] at h
    exact ⟨s', by rw [h.1]⟩

/-- Splitting a prefix test across an append: either the pattern fits inside
the left part, or the left part is a proper prefix of the pattern and the
rest of the pattern starts the right part. -/
theorem hasPrefixL_cons_cons (c d : Char) (p s : List Char) :
    hasPrefixL (c :: p) (d :: s) = ((c == d) && hasPrefixL p s) := rfl

theorem hasPrefixL_append_iff (p a b : List Char) :
    hasPrefixL p (a ++ b) = true ↔
      (p.length ≤ a.length ∧ hasPrefixL p a = true) ∨
      (a.length < p.length ∧ hasPrefixL a p = true ∧
        hasPrefixL (p.drop a.length) b = true) := by
  induction p generalizing a with
  | nil =>
    simp [hasPrefixL]
  | cons c q ih =>
    cases a with
    | nil =>
      simp [hasPrefixL]
    | cons d a' =>
      rw [List.cons_append, hasPrefixL_cons_cons, Bool.and_eq_true]
      rw [hasPrefixL_cons_cons, Bool.and_eq_true]
      rw [hasPrefixL_cons_cons, Bool.and_eq_true]
      simp only [List.length_cons, List.drop_succ_cons, beq_iff_eq]
      constructor
      · rintro ⟨hcd, hrest⟩
        rcases (ih a').1 hrest with ⟨h1, h2⟩ | ⟨h1, h2, h3⟩
        · exact Or.inl ⟨by omega, hcd, h2⟩
        · exact Or.inr ⟨by omega, ⟨hcd.symm, h2⟩, h3⟩
      · rintro (⟨h1, hcd, h2⟩ | ⟨h1, ⟨hdc, h2⟩, h3⟩)
        · exact ⟨hcd, (ih a').2 (Or.inl ⟨by omega, h2⟩)⟩
        · exact ⟨hdc.symm, (ih a').2 (Or.inr ⟨by omega, h2, h3⟩)⟩

theorem containsSub_of_hasPrefixL {p s : List Char}
    (h : hasPrefixL p s = true) : containsSub p s = true := by
  cases s with
  | nil => simpa [containsSub] using h
  | cons x t => simp [containsSub, h]

theorem containsSub_cons {p t : List Char} (x : Char)
    (h : containsSub p t = true) : containsSub p (x :: t) = true := by
  simp [containsSub, h]

theorem containsSub_mem {p s : List Char} (h : containsSub p s = true) :
    ∀ c ∈ p, c ∈ s := by
  induction s with
  | nil =>
    cases p with
    | nil => simp
    | cons c q => simp [containsSub, hasPrefixL] at h
  | cons x t ih =>
    simp only [containsSub, Bool.or_eq_true] at h
    rcases h with h | h
    · exact hasPrefixL_mem h
    · intro c hc
      exact List.mem_cons_of_mem _ (ih h c hc)

theorem containsSub_eq_false_of_mem {c : Char} {p s : List Char}
    (hc : c ∈ p) (hs : c ∉ s) : containsSub p s = false := by
  cases h : containsSub p s
  · rfl
  · exact absurd (containsSub_mem h c hc) hs

theorem hasSuffixL_refl (p : List Char) : hasSuffixL p p = true :=
  hasPrefixL_refl _

theorem hasSuffixL_cons {p s : List Char} (x : Char)
    (h : hasSuffixL p s = true) : hasSuffixL p (x :: s) = true := by
  unfold hasSuffixL at h ⊢
  rw [List.reverse_cons]
  exact hasPrefixL_append_right _ h

theorem hasSuffixL_append_left {p b : List Char} (a : List Char)
    (h : hasSuffixL p b = true) : hasSuffixL p (a ++ b) = true := by
  unfold hasSuffixL at h ⊢
  rw [List.reverse_append]
  exact hasPrefixL_append_right _ h

theorem hasSuffixL_self_append (a p : List Char) :
    hasSuffixL p (a ++ p) = true :=
  hasSuffixL_append_left a (hasSuffixL_refl p)

theorem hasSuffixL_mem {p s : List Char} (h : hasSuffixL p s = true) :
    ∀ c ∈ p, c ∈ s := by
  intro c hc
  have := hasPrefixL_mem h c (by simpa using hc)
  simpa using this

/-- Occurrence decomposition for substring search over an append: an
occurrence lies inside the left part, inside the right part, or straddles
the boundary with `p.take n` ending the left part and `p.drop n` starting
the right part. -/
theorem containsSub_append_split {p : List Char} (a b : List Char)
    (h : containsSub p (a ++ b) = true) :
    containsSub p a = true ∨ containsSub p b = true ∨
      ∃ n, 0 < n ∧ n < p.length ∧ hasSuffixL (p.take n) a = true ∧
        hasPrefixL (p.drop n) b = true := by
  induction a with
  | nil => exact Or.inr (Or.inl (by simpa using h))
  | cons x a' ih =>
    rw [List.cons_append] at h
    rw [show containsSub p (x :: (a' ++ b)) =
      (hasPrefixL p (x :: (a' ++ b)) || containsSub p (a' ++ b)) from rfl,
      Bool.or_eq_true] at h
    rcases h with h | h
    · rw [← List.cons_append] at h
      rcases (hasPrefixL_append_iff p (x :: a') b).1 h with ⟨_, h2⟩ | ⟨h1, h2, h3⟩
      · exact Or.inl (containsSub_of_hasPrefixL h2)
      · refine Or.inr (Or.inr ⟨(x :: a').length, by simp, h1, ?_, h3⟩)
        rw [take_of_hasPrefixL h2]
        exact hasSuffixL_refl _
    · rcases ih h with h | h | ⟨n, hn1, hn2, hn3, hn4⟩
      · exact Or.inl (containsSub_cons x h)
      · exact Or.inr (Or.inl h)
      · exact Or.inr (Or.inr ⟨n, hn1, hn2, hasSuffixL_cons x hn3, hn4⟩)

/-- Refutation form of `containsSub_append_split`. -/
theorem containsSub_append_false {p : List Char} (a b : List Char)
    (ha : containsSub p a = false) (hb : containsSub p b = false)
    (hstrad : ∀ n, 0 < n → n < p.length →
      hasSuffixL (p.take n) a = true → hasPrefixL (p.drop n) b = false) :
    containsSub p (a ++ b) = false := by
  cases h : containsSub p (a ++ b)
  · rfl
  · rcases containsSub_append_split a b h with h | h | ⟨n, h1, h2, h3, h4⟩
    · rw [ha] at h; exact absurd h (by simp)
    · rw [hb] at h; exact absurd h (by simp)
    · rw [hstrad n h1 h2 h3] at h4; exact absurd h4 (by simp)

/-! ## Python `str.split` -/

/-- Worker for `pySplit` with a guaranteed non-empty separator `c :: cr`:
scan left to right, split at the first separator occurrence and recurse on
the remainder, exactly as Python `str.split` does. -/
def pySplitNE (c : Char) (cr : List Char) (s : List Char) : List (List Char) :=
  match s with
  | [] => [[]]
  | x :: t =>
    if hasPrefixL (c :: cr) (x :: t) = true then
      [] :: pySplitNE c cr (List.drop cr.length t)
    else
      match pySplitNE c cr t with
      | [] => [[x]]
      | h₂ :: r => (x :: h₂) :: r
termination_by s.length
decreasing_by
  · simp only [List.length_cons]
    have := List.length_drop cr.length t
    omega
  · simp only [List.length_cons]
    omega

/-- Python `s.split(sep)` for a non-empty separator.  (Python raises on an
empty separator; the source never splits on one, so that case is mapped to
`[s]`.) -/
def pySplit (sep : List Char) (s : List Char) : List (List Char) :=
  match sep with
  | [] => [s]
  | c :: cr => pySplitNE c cr s

theorem pySplitNE_nil (c : Char) (cr : List Char) : pySplitNE c cr [] = [[]] := by
  rw [pySplitNE]

theorem pySplitNE_cons (c : Char) (cr : List Char) (x : Char) (t : List Char) :
    pySplitNE c cr (x :: t) =
      if hasPrefixL (c :: cr) (x :: t) = true then
        [] :: pySplitNE c cr (List.drop cr.length t)
      else
        match pySplitNE c cr t with
        | [] => [[x]]
        | h₂ :: r => (x :: h₂) :: r := by
  rw [pySplitNE]

theorem pySplitNE_ne_nil (c : Char) (cr s : List Char) : pySplitNE c cr s ≠ [] := by
  induction s with
  | nil => rw [pySplitNE_nil]; simp
  | cons x t ih =>
    rw [pySplitNE_cons]
    split
    · simp
    · split
      · simp
      · simp

theorem pySplit_ne_nil (sep s : List Char) : pySplit sep s ≠ [] := by
  cases sep with
  | nil => simp [pySplit]
  | cons c cr => exact pySplitNE_ne_nil c cr s

/-- Text containing no separator occurrence splits into a single piece. -/
theorem pySplit_no_occurrence {sep s : List Char}
    (h : containsSub sep s = false) : pySplit sep s = [s] := by
  cases sep with
  | nil => rfl
  | cons c cr =>
    show pySplitNE c cr s = [s]
    induction s with
    | nil => rw [pySplitNE_nil]
    | cons x t ih =>
      rw [show containsSub (c :: cr) (x :: t) =
        (hasPrefixL (c :: cr) (x :: t) || containsSub (c :: cr) t) from rfl,
        Bool.or_eq_false_iff] at h
      rw [pySplitNE_cons, h.1, ih h.2]
      simp

/-- Splitting at a separator occurrence whose left context cannot overlap
the separator: `hself` says no proper tail of the separator is a prefix of
the separator itself (true for the separators the source splits on), and
`hca` says the separator does not occur in the left part `a`.  Then the
first separator occurrence of `a ++ sep ++ ys` is exactly at the boundary. -/
theorem pySplit_boundary {sep : List Char} (a ys : List Char)
    (hca : containsSub sep a = false)
    (hself : ∀ n, n < sep.length → 0 < n →
      hasPrefixL (sep.drop n) sep = false) :
    pySplit sep (a ++ sep ++ ys) = a :: pySplit sep ys := by
  obtain ⟨c, cr, rfl⟩ : ∃ c cr, sep = c :: cr := by
    cases hs : sep with
    | nil =>
      exfalso
      subst hs
      cases a with
      | nil => simp [containsSub, hasPrefixL] at hca
      | cons x t => simp [containsSub, hasPrefixL] at hca
    | cons c cr => exact ⟨c, cr, rfl⟩
  rw [List.append_assoc]
  show pySplitNE c cr (a ++ ((c :: cr) ++ ys)) = a :: pySplitNE c cr ys
  revert hca
  induction a with
  | nil =>
    intro _
    rw [List.nil_append]
    rw [show ((c :: cr) ++ ys : List Char) = c :: (cr ++ ys) from rfl]
    rw [pySplitNE_cons]
    have h1 : hasPrefixL (c :: cr) (c :: (cr ++ ys)) = true :=
      hasPrefixL_self_append (c :: cr) ys
    rw [h1, if_pos rfl, List.drop_left cr ys]
  | cons x a' ih =>
    intro hca
    rw [show containsSub (c :: cr) (x :: a') =
      (hasPrefixL (c :: cr) (x :: a') || containsSub (c :: cr) a') from rfl,
      Bool.or_eq_false_iff] at hca
    have hpre : hasPrefixL (c :: cr) (x :: (a' ++ ((c :: cr) ++ ys))) = false := by
      cases hp : hasPrefixL (c :: cr) (x :: (a' ++ ((c :: cr) ++ ys)))
      · rfl
      · exfalso
        have hp' : hasPrefixL (c :: cr) ((x :: a') ++ ((c :: cr) ++ ys)) = true := hp
        rcases (hasPrefixL_append_iff (c :: cr) (x :: a') ((c :: cr) ++ ys)).1 hp' with
          ⟨_, h2⟩ | ⟨h1, h2, h3⟩
        · rw [hca.1] at h2
          exact absurd h2 (by simp)
        · have hself' := hself (x :: a').length h1 (by simp)
          rcases (hasPrefixL_append_iff ((c :: cr).drop (x :: a').length)
            (c :: cr) ys).1 h3 with ⟨_, h5⟩ | ⟨h4, _, _⟩
          · rw [hself'] at h5
            exact absurd h5 (by simp)
          · have := List.length_drop (x :: a').length (c :: cr)
            omega
    show pySplitNE c cr (x :: (a' ++ ((c :: cr) ++ ys))) = (x :: a') :: pySplitNE c cr ys
    rw [pySplitNE_cons, hpre, ih hca.2]
    simp

/-- Single-character splitting distributes over an occurrence boundary. -/
theorem pySplit_single_append (c : Char) (a b : List Char) :
    pySplit [c] (a ++ [c] ++ b) = pySplit [c] a ++ pySplit [c] b := by
  rw [List.append_assoc]
  show pySplitNE c [] (a ++ ([c] ++ b)) = pySplitNE c [] a ++ pySplitNE c [] b
  induction a with
  | nil =>
    rw [List.nil_append]
    rw [show ([c] ++ b : List Char) = c :: b from rfl]
    rw [pySplitNE_cons]
    have h1 : hasPrefixL [c] (c :: b) = true := by simp [hasPrefixL]
    rw [h1, if_pos rfl, pySplitNE_nil]
    simp
  | cons x a' ih =>
    show pySplitNE c [] (x :: (a' ++ ([c] ++ b))) =
      pySplitNE c [] (x :: a') ++ pySplitNE c [] b
    rw [pySplitNE_cons, pySplitNE_cons]
    by_cases hx : c = x
    · subst hx
      have h1 : ∀ t : List Char, hasPrefixL [c] (c :: t) = true := by
        intro t; simp [hasPrefixL]
      rw [h1, h1, if_pos rfl, if_pos rfl]
      simp only [List.length_nil, List.drop_zero]
      rw [ih]
      rfl
    · have h1 : ∀ t : List Char, hasPrefixL [c] (x :: t) = false := by
        intro t
        rw [show hasPrefixL [c] (x :: t) = ((c == x) && hasPrefixL [] t) from rfl]
        simp [hx]
      rw [h1, h1, ih]
      cases hsp : pySplitNE c [] a' with
      | nil => exact absurd hsp (pySplitNE_ne_nil c [] a')
      | cons h0 r0 => simp

theorem getLastD_append_singleton {α : Type} (l : List α) (a d : α) :
    (l ++ [a]).getLastD d = a := by
  induction l generalizing d with
  | nil => rfl
  | cons x t ih =>
    rw [List.cons_append, List.getLastD_cons, ih]

/-! ## Python `str(int)` -/

/-- Decimal digit character for a single digit (total, clamping above 9;
only applied to values below 10). -/
def digitChar (n : Nat) : Char :=
  match n with
  | 0 => '0' | 1 => '1' | 2 => '2' | 3 => '3' | 4 => '4'
  | 5 => '5' | 6 => '6' | 7 => '7' | 8 => '8' | _ => '9'

/-- Decimal rendering of a natural number, as Python `str` produces it. -/
def natToChars (n : Nat) : List Char :=
  if n < 10 then [digitChar n] else natToChars (n / 10) ++ [digitChar (n % 10)]
termination_by n
decreasing_by
  exact Nat.div_lt_self (by omega) (by omega)

/-- Decimal rendering of an integer, as Python `str` produces it. -/
def intToChars (i : Int) : List Char :=
  if i < 0 then '-' :: natToChars i.natAbs else natToChars i.toNat

theorem digitChar_mem (n : Nat) : digitChar n ∈ ("0123456789").toList := by
  rcases n with _ | _ | _ | _ | _ | _ | _ | _ | _ | n <;> simp [digitChar]

theorem natToChars_mem (n : Nat) : ∀ c ∈ natToChars n, c ∈ ("0123456789").toList := by
  induction n using Nat.strong_induction_on with
  | _ n ih =>
    rw [natToChars]
    split
    · intro c hc
      rw [List.mem_singleton] at hc
      subst hc
      exact digitChar_mem n
    · intro c hc
      rcases List.mem_append.1 hc with hc | hc
      · exact ih (n / 10) (Nat.div_lt_self (by omega) (by omega)) c hc
      · rw [List.mem_singleton] at hc
        subst hc
        exact digitChar_mem (n % 10)

theorem intToChars_mem (i : Int) : ∀ c ∈ intToChars i, c ∈ ("-0123456789").toList := by
  intro c hc
  rw [intToChars] at hc
  split at hc
  · rcases List.mem_cons.1 hc with hc | hc
    · subst hc; simp
    · have := natToChars_mem i.natAbs c hc
      simp at this ⊢
      tauto
  · have := natToChars_mem i.toNat c hc
    simp at this ⊢
    tauto

/-! ## League catalog (source lines 49–83) -/

def BASE_URL : List Char := ("https://www.espn.com").toList

def get_date_leagues : List (List Char) :=
  [("mlb").toList, ("nba").toList, ("ncb").toList, ("ncw").toList,
   ("wnba").toList, ("nhl").toList]

def get_week_leagues : List (List Char) :=
  [("nfl").toList, ("ncf").toList]

def get_ncb_groups : List Int := [50, 55, 56, 100]

def get_ncw_groups : List Int := [50, 55, 100]

def get_ncf_groups : List Int := [80, 81]

def get_html_boxscore_leagues : List (List Char) := [("nhl").toList]

def get_no_scoreboard_json_leagues : List (List Char) :=
  [("wnba").toList, ("nhl").toList]

/-! ## URL builders (source lines 89–116) -/

/-- Body of the date-scoreboard URL format strings (source lines 93–98),
shared by the checked builder and the enumeration loops that only call it
with a league already known to be a date league. -/
def make_date_url (league date : List Char) (group : Option Int) : List Char :=
  if league = ("nhl").toList then
    BASE_URL ++ ("/").toList ++ league ++ ("/scoreboard?date=").toList ++ date
  else
    match group with
    | none =>
      BASE_URL ++ ("/").toList ++ league ++ ("/scoreboard/_/date/").toList ++
        date ++ ("?xhr=1").toList
    | some g =>
      BASE_URL ++ ("/").toList ++ league ++ ("/scoreboard/_/group/").toList ++
        intToChars g ++ ("/date/").toList ++ date ++ ("?xhr=1").toList

/-- Source `get_date_scoreboard_url` (lines 89–100): raises `ValueError`
unless the league is a date league. -/
def get_date_scoreboard_url (league date : List Char) (group : Option Int) :
    Except String (List Char) :=
  if league ∈ get_date_leagues then
    Except.ok (make_date_url league date group)
  else
    Except.error ("League must be a date league to get date scoreboard url")

/-- Body of the week-scoreboard URL format strings (source lines 105–108). -/
def make_week_url (league : List Char) (season_year : Int) (season_type : Int)
    (week : Int) (group : Option Int) : List Char :=
  match group with
  | none =>
    BASE_URL ++ ("/").toList ++ league ++ ("/scoreboard/_/year/").toList ++
      intToChars season_year ++ ("/seasontype/").toList ++ intToChars season_type ++
      ("/week/").toList ++ intToChars week ++ ("?xhr=1").toList
  | some g =>
    BASE_URL ++ ("/").toList ++ league ++ ("/scoreboard/_/group/").toList ++
      intToChars g ++ ("/year/").toList ++ intToChars season_year ++
      ("/seasontype/").toList ++ intToChars season_type ++
      ("/week/").toList ++ intToChars week ++ ("?xhr=1").toList

/-- Source `get_week_scoreboard_url` (lines 102–110). -/
def get_week_scoreboard_url (league : List Char) (season_year season_type week : Int)
    (group : Option Int) : Except String (List Char) :=
  if league ∈ get_week_leagues then
    Except.ok (make_week_url league season_year season_type week group)
  else
    Except.error ("League must be a week league to get week scoreboard url")

/-! ## URL decoding (source lines 187–207) -/

/-- Source `get_league_from_url` (lines 187–188):
`url.split('.com/')[1].split('/')[0]`. -/
def get_league_from_url (url : List Char) : List Char :=
  (pySplit (("/").toList) ((pySplit ((".com/").toList) url).getD 1 [])).getD 0 []

/-- Source `get_date_from_scoreboard_url` (lines 190–195). -/
def get_date_from_scoreboard_url (url : List Char) : List Char :=
  if get_league_from_url url = ("nhl").toList then
    (pySplit (("&").toList) ((pySplit (("?date=").toList) url).getD 1 [])).getD 0 []
  else
    (pySplit (("?").toList) ((pySplit (("/").toList) url).getLastD [])).getD 0 []

def valid_data_types : List (List Char) :=
  [("scoreboard").toList, ("recap").toList, ("boxscore").toList,
   ("playbyplay").toList, ("conversation").toList, ("gamecast").toList]

/-- Source `get_data_type_from_url` (lines 197–207): first substring match
against the fixed list wins; raises `ValueError` if none matches. -/
def get_data_type_from_url (url : List Char) : Except String (List Char) :=
  match valid_data_types.find? (fun t => containsSub t url) with
  | some t => Except.ok t
  | none => Except.error ("Unknown data_type for url")

/-! ## Cache mapper (source lines 240–261) -/

/-- Python `url.replace('/', '|')`: character-wise replacement. -/
def pyReplace (url : List Char) : List Char :=
  url.map (fun c => if c = '/' then '|' else c)

/-- Source `create_filename_ext` (lines 240–245). -/
def create_filename_ext (league data_type : List Char) : List Char :=
  if league ∈ get_html_boxscore_leagues ∧ data_type = ("boxscore").toList then
    ("html").toList
  else
    ("json").toList

/-- Directory part of the cache filename (source line 250–252): the root is
normalised to end with a separator, then a second separator, the league and
the data type are appended. -/
def dir_path_of (cached_json_path league data_type : List Char) : List Char :=
  (if cached_json_path.getLast? = some '/' then cached_json_path
   else cached_json_path ++ [('/' : Char)]) ++
    ("/").toList ++ league ++ ("/").toList ++ data_type ++ ("/").toList

/-- Pure value of source `get_filename` (lines 247–261): directory part,
URL with every `/` replaced by `|`, and the extension appended unless the
name already ends with it. -/
def get_filename_str (cached_json_path league data_type url : List Char) : List Char :=
  let filename := dir_path_of cached_json_path league data_type ++ pyReplace url
  let ext := '.' :: create_filename_ext league data_type
  if hasSuffixL ext filename = true then filename else filename ++ ext

/-- Source `get_filename` with the `os.makedirs` effect made explicit: the
filesystem is a list of existing directories and the call adds the computed
directory when absent.  The function is total — it never raises, whether or
not the directory already exists. -/
def get_filename (dirs : List (List Char)) (cached_json_path league data_type url : List Char) :
    List Char × List (List Char) :=
  let dp := dir_path_of cached_json_path league data_type
  (get_filename_str cached_json_path league data_type url,
    if dp ∈ dirs then dirs else dirs ++ [dp])

/-! ## Fetch gateway (source lines 19–46, 263–273, 374–394) -/

/-- Decoded Python values: `None`, numbers, strings, dicts and lists.  A
parsed HTML document is represented as a `str` payload (its membership test
for a string key is `false`, matching `"error_code" not in soup`). -/
inductive PyVal : Type where
  | none : PyVal
  | num : Int → PyVal
  | str : List Char → PyVal
  | dict : List (List Char × PyVal) → PyVal
  | list : List PyVal → PyVal

/-- Python `data == None`. -/
def isNoneV : PyVal → Bool
  | PyVal.none => true
  | _ => false

/-- Python `key in data` for the values the gateway inspects: key membership
for dicts, `false` for every other payload. -/
def hasKey (v : PyVal) (key : List Char) : Bool :=
  match v with
  | PyVal.dict kvs => kvs.any (fun kv => kv.1 == key)
  | _ => false

/-- An upstream HTTP response: status code and decoded body. -/
structure NetResp : Type where
  status : Int
  body : PyVal

/-- The on-disk cache as explicit state: filename ↦ stored decoded value. -/
def Cache : Type := List (List Char × PyVal)

def lookupC (cache : Cache) (k : List Char) : Option PyVal :=
  match cache.find? (fun kv => kv.1 == k) with
  | some kv => some kv.2
  | none => Option.none

/-- Source `get_new_json` (lines 30–37): a 200 response yields the decoded
body, any other status yields the soft error payload instead of raising. -/
def get_new_json (net : List Char → NetResp) (url : List Char) : PyVal :=
  let res := net url
  if res.status = 200 then
    res.body
  else
    PyVal.dict [(("error_code").toList, PyVal.num res.status),
                (("error_msg").toList, PyVal.str (("URL Error").toList))]

/-- Source `get_new_html_soup` (lines 39–46). -/
def get_new_html_soup (net : List Char → NetResp) (url : List Char) : PyVal :=
  let res := net url
  if res.status = 200 then
    res.body
  else
    PyVal.dict [(("error_code").toList, PyVal.num res.status),
                (("error_msg").toList, PyVal.str (("ESPN Error").toList))]

/-- Source `get_cached` (lines 263–273): the stored value if the cache file
exists, `None` otherwise (reading is modelled as returning the stored
decoded value). -/
def get_cached (cache : Cache) (filename : List Char) : PyVal :=
  match lookupC cache filename with
  | some v => v
  | Option.none => PyVal.none

/-- Result of one gateway call: the returned data, the cache state after the
call, and whether a network retrieval was performed. -/
structure FetchResult : Type where
  data : PyVal
  cache : Cache
  networkUsed : Bool

/-- Data produced on a cache miss (source lines 382–390): the json or html
fetch path according to the computed extension. -/
def fetched_data (net : List Char → NetResp) (url league data_type : List Char) : PyVal :=
  if create_filename_ext league data_type = ("json").toList then get_new_json net url
  else get_new_html_soup net url

/-- Miss path of `get_cached_url` (source lines 381–393): fetch, then
persist unless the cache path is absent or the payload carries the
upstream-error marker. -/
def fetch_and_store (net : List Char → NetResp) (cache : Cache)
    (url league data_type : List Char) (filenameOpt : Option (List Char)) :
    FetchResult :=
  match filenameOpt with
  | some filename =>
    if hasKey (fetched_data net url league data_type) (("error_code").toList) = true then
      ⟨fetched_data net url league data_type, cache, true⟩
    else
      ⟨fetched_data net url league data_type,
        (filename, fetched_data net url league data_type) :: cache, true⟩
  | Option.none => ⟨fetched_data net url league data_type, cache, true⟩

/-- Source `get_cached_url` (lines 374–394).  A non-empty `cached_path`
(Python truthiness) computes the cache filename and attempts a cache read;
a non-`None` cached value short-circuits with no network call, otherwise
the miss path runs. -/
def get_cached_url (net : List Char → NetResp) (cache : Cache)
    (url league data_type : List Char) (cached_path : Option (List Char)) :
    FetchResult :=
  match cached_path with
  | some p =>
    if p.isEmpty = true then
      fetch_and_store net cache url league data_type Option.none
    else
      if isNoneV (get_cached cache (get_filename_str p league data_type url)) = true then
        fetch_and_store net cache url league data_type
          (some (get_filename_str p league data_type url))
      else
        ⟨get_cached cache (get_filename_str p league data_type url), cache, false⟩
  | Option.none => fetch_and_store net cache url league data_type Option.none

/-! ## Calendar-driven scoreboard enumeration (source lines 118–184) -/

/-- Reference instant for the week-league branch: the calendar year and
month of `datetime.now(pytz.utc) + relativedelta(weeks=offset)` together
with a totally ordered timestamp used for the window comparisons. -/
structure PyDT : Type where
  year : Int
  month : Nat
  ts : Int

/-- One `(value, startDate, endDate)` calendar entry, dates already parsed
to timestamps. -/
structure CalendarEntry : Type where
  value : Int
  startDate : Int
  endDate : Int

/-- One season-type calendar block; `entries` is `none` when the Python
dict has no `'entries'` key. -/
structure SeasonType : Type where
  value : Int
  entries : Option (List CalendarEntry)

/-- Season-year guess of source lines 138–141: current calendar year when
the instant's month is greater than 2, previous calendar year otherwise. -/
def guess_season_year (dt : PyDT) : Int :=
  if dt.month > 2 then dt.year else dt.year - 1

/-- Week-league branch of source `get_current_scoreboard_urls`
(lines 134–152): `dt` is the already-offset reference instant and
`calendar` the fetched calendar for the guessed season year. -/
def get_current_scoreboard_urls_week (dt : PyDT) (calendar : List SeasonType)
    (league : List Char) : List (List Char) :=
  calendar.foldl
    (fun urls st =>
      match st.entries with
      | Option.none => urls
      | some es =>
        es.foldl
          (fun urls2 e =>
            if e.startDate ≤ dt.ts ∧ dt.ts ≤ e.endDate then
              if league = ("ncf").toList then
                urls2 ++ get_ncf_groups.map (fun g =>
                  make_week_url league (guess_season_year dt) st.value e.value (some g))
              else
                urls2 ++ [make_week_url league (guess_season_year dt) st.value e.value
                  Option.none]
            else urls2)
          urls)
    []

/-- URLs emitted for one day of the date-league season loop
(source lines 162–169). -/
def day_scoreboard_urls (fmt : Int → List Char) (league : List Char) (d : Int) :
    List (List Char) :=
  if league = ("ncb").toList then
    get_ncb_groups.map (fun g => make_date_url league (fmt d) (some g))
  else if league = ("ncw").toList then
    get_ncw_groups.map (fun g => make_date_url league (fmt d) (some g))
  else
    [make_date_url league (fmt d) Option.none]

/-- Date-league branch of source `get_all_scoreboard_urls` (lines 159–171):
one loop iteration per day of the half-open season window, with day
granularity instants and `fmt` standing for `strftime("%Y%m%d")`. -/
def get_all_scoreboard_urls_date (fmt : Int → List Char) (league : List Char)
    (startD endD : Int) : List (List Char) :=
  if _h : startD < endD then
    day_scoreboard_urls fmt league startD ++
      get_all_scoreboard_urls_date fmt league (startD + 1) endD
  else []
termination_by (endD - startD).toNat
decreasing_by
  omega

/-! ## Claim theorems -/

/-- C6: for every league and date, the date-scoreboard URL builder raises
InvalidLeague unless the league is date-indexed; for the one league with a
distinct markup convention (nhl) it returns `{base}/{league}/scoreboard?date={date}`,
and for every other date league it returns `{base}/{league}/scoreboard/_/date/{date}`
with no group or `{base}/{league}/scoreboard/_/group/{group}/date/{date}` with a
group, each suffixed with the data-only query flag `?xhr=1`. -/
theorem c6_date_scoreboard_url (league date : List Char) (group : Option Int) :
    (league ∉ get_date_leagues →
      get_date_scoreboard_url league date group =
        Except.error ("League must be a date league to get date scoreboard url"))
    ∧ (league = ("nhl").toList →
      get_date_scoreboard_url league date group =
        Except.ok (BASE_URL ++ ("/").toList ++ league ++
          ("/scoreboard?date=").toList ++ date))
    ∧ (league ∈ get_date_leagues → league ≠ ("nhl").toList → group = Option.none →
      get_date_scoreboard_url league date group =
        Except.ok (BASE_URL ++ ("/").toList ++ league ++
          ("/scoreboard/_/date/").toList ++ date ++ ("?xhr=1").toList))
    ∧ (∀ g, league ∈ get_date_leagues → league ≠ ("nhl").toList → group = some g →
      get_date_scoreboard_url league date group =
        Except.ok (BASE_URL ++ ("/").toList ++ league ++
          ("/scoreboard/_/group/").toList ++ intToChars g ++
          ("/date/").toList ++ date ++ ("?xhr=1").toList)) := by
  refine ⟨?_, ?_, ?_, ?_⟩
  · intro h
    simp [get_date_scoreboard_url, h]
  · intro h
    subst h
    rw [get_date_scoreboard_url, if_pos (by decide), make_date_url.eq_def, if_pos rfl]
  · intro h1 h2 h3
    subst h3
    rw [get_date_scoreboard_url, if_pos h1, make_date_url.eq_def, if_neg h2]
  · intro g h1 h2 h3
    subst h3
    rw [get_date_scoreboard_url, if_pos h1, make_date_url.eq_def, if_neg h2]

/-- Witness for C6 at concrete inputs. -/
theorem c6_witness :
    get_date_scoreboard_url (("xyz").toList) (("20230115").toList) Option.none =
      Except.error ("League must be a date league to get date scoreboard url")
    ∧ get_date_scoreboard_url (("nhl").toList) (("20230115").toList) Option.none =
      Except.ok (BASE_URL ++ ("/").toList ++ ("nhl").toList ++
        ("/scoreboard?date=").toList ++ ("20230115").toList)
    ∧ get_date_scoreboard_url (("nba").toList) (("20230115").toList) Option.none =
      Except.ok (BASE_URL ++ ("/").toList ++ ("nba").toList ++
        ("/scoreboard/_/date/").toList ++ ("20230115").toList ++ ("?xhr=1").toList)
    ∧ get_date_scoreboard_url (("ncb").toList) (("20230115").toList) (some 50) =
      Except.ok (BASE_URL ++ ("/").toList ++ ("ncb").toList ++
        ("/scoreboard/_/group/").toList ++ intToChars 50 ++
        ("/date/").toList ++ ("20230115").toList ++ ("?xhr=1").toList) := by
  refine ⟨?_, ?_, ?_, ?_⟩
  · exact (c6_date_scoreboard_url (("xyz").toList) (("20230115").toList) Option.none).1
      (by decide)
  · exact (c6_date_scoreboard_url (("nhl").toList) (("20230115").toList) Option.none).2.1 rfl
  · exact (c6_date_scoreboard_url (("nba").toList) (("20230115").toList) Option.none).2.2.1
      (by decide) (by decide) rfl
  · exact (c6_date_scoreboard_url (("ncb").toList) (("20230115").toList) (some 50)).2.2.2 50
      (by decide) (by decide) rfl

/-- C10: for the league nhl, `get_date_scoreboard_url` ignores the group
argument — the URL is the same with every group as with none — and the
returned URL carries no `?xhr=1` data-only query flag (whenever the date
string itself does not contain that flag text). -/
theorem c10_nhl_group_ignored (date : List Char) (group : Option Int) :
    get_date_scoreboard_url (("nhl").toList) date group =
      get_date_scoreboard_url (("nhl").toList) date Option.none
    ∧ get_date_scoreboard_url (("nhl").toList) date group =
      Except.ok (BASE_URL ++ ("/").toList ++ ("nhl").toList ++
        ("/scoreboard?date=").toList ++ date)
    ∧ (containsSub (("?xhr=1").toList) date = false →
      containsSub (("?xhr=1").toList)
        (BASE_URL ++ ("/").toList ++ ("nhl").toList ++
          ("/scoreboard?date=").toList ++ date) = false) := by
  refine ⟨?_, ?_, ?_⟩
  · rw [get_date_scoreboard_url, if_pos (by decide), make_date_url.eq_def, if_pos rfl,
      get_date_scoreboard_url, if_pos (by decide), make_date_url.eq_def, if_pos rfl]
  · rw [get_date_scoreboard_url, if_pos (by decide), make_date_url.eq_def, if_pos rfl]
  · intro hdate
    have hlen : (("?xhr=1").toList).length = 6 := by decide
    have hsuf : ∀ n, n < 6 → 0 < n →
        hasSuffixL ((("?xhr=1").toList).take n)
          (BASE_URL ++ ("/").toList ++ ("nhl").toList ++ ("/scoreboard?date=").toList) =
          false := by decide
    exact containsSub_append_false _ date (by decide) hdate
      (fun n h1 h2 h3 => by
        rw [hsuf n (by omega) h1] at h3
        exact absurd h3 (by simp))

/-- Witness for C10 at concrete inputs. -/
theorem c10_witness :
    get_date_scoreboard_url (("nhl").toList) (("20230115").toList) (some 5) =
      get_date_scoreboard_url (("nhl").toList) (("20230115").toList) Option.none
    ∧ containsSub (("?xhr=1").toList)
        (BASE_URL ++ ("/").toList ++ ("nhl").toList ++ ("/scoreboard?date=").toList ++
          ("20230115").toList) = false := by
  refine ⟨(c10_nhl_group_ignored (("20230115").toList) (some 5)).1, ?_⟩
  exact (c10_nhl_group_ignored (("20230115").toList) (some 5)).2.2 (by decide)

/-- C2: a gateway call with a cache root for which the cache already holds
a decoded value that is not `None` returns that cached value, leaves the
cache unchanged, and performs no network retrieval. -/
theorem c2_cache_hit (net : List Char → NetResp) (cache : Cache)
    (url league data_type root : List Char) (v : PyVal)
    (hroot : root ≠ [])
    (hhit : lookupC cache (get_filename_str root league data_type url) = some v)
    (hv : isNoneV v = false) :
    get_cached_url net cache url league data_type (some root) = ⟨v, cache, false⟩ := by
  have hempty : ¬(root.isEmpty = true) := by
    cases root with
    | nil => exact absurd rfl hroot
    | cons x t => simp [List.isEmpty]
  have hget : get_cached cache (get_filename_str root league data_type url) = v := by
    rw [get_cached, hhit]
  rw [get_cached_url, if_neg hempty, hget, hv]
  simp

/-- Witness for C2 at concrete inputs. -/
theorem c2_witness :
    get_cached_url (fun _ => ⟨200, PyVal.num 7⟩)
      [(get_filename_str (("cache").toList) (("nba").toList) (("scoreboard").toList)
          (("u").toList), PyVal.num 1)]
      (("u").toList) (("nba").toList) (("scoreboard").toList) (some (("cache").toList)) =
    ⟨PyVal.num 1,
      [(get_filename_str (("cache").toList) (("nba").toList) (("scoreboard").toList)
          (("u").toList), PyVal.num 1)], false⟩ := by
  exact c2_cache_hit _ _ _ _ _ _ _ (by decide)
    (by rw [lookupC, List.find?_cons_of_pos _ (by simp)]) rfl

/-- C1: when the gateway actually fetches (no usable cache entry) and the
upstream response is non-200, the result is the soft error payload carrying
the status code and an error message (never raised), the cache is left
unchanged, and a second call for the same URL and cache root attempts the
network again instead of reading a cache entry. -/
theorem c1_error_payload_not_cached (net : List Char → NetResp) (cache : Cache)
    (url league data_type root : List Char)
    (hroot : root ≠ [])
    (hstatus : (net url).status ≠ 200)
    (hmiss : isNoneV (get_cached cache (get_filename_str root league data_type url)) = true) :
    (get_cached_url net cache url league data_type (some root)).data =
      PyVal.dict [(("error_code").toList, PyVal.num (net url).status),
        (("error_msg").toList, PyVal.str
          (if create_filename_ext league data_type = ("json").toList then
            ("URL Error").toList else ("ESPN Error").toList))]
    ∧ (get_cached_url net cache url league data_type (some root)).cache = cache
    ∧ (get_cached_url net cache url league data_type (some root)).networkUsed = true
    ∧ (get_cached_url net
        (get_cached_url net cache url league data_type (some root)).cache
        url league data_type (some root)).networkUsed = true := by
  have hempty : ¬(root.isEmpty = true) := by
    cases root with
    | nil => exact absurd rfl hroot
    | cons x t => simp [List.isEmpty]
  have hdata : fetched_data net url league data_type =
      PyVal.dict [(("error_code").toList, PyVal.num (net url).status),
        (("error_msg").toList, PyVal.str
          (if create_filename_ext league data_type = ("json").toList then
            ("URL Error").toList else ("ESPN Error").toList))] := by
    by_cases hext : create_filename_ext league data_type = ("json").toList
    · rw [fetched_data, if_pos hext, get_new_json, if_neg hstatus, if_pos hext]
    · rw [fetched_data, if_neg hext, get_new_html_soup, if_neg hstatus, if_neg hext]
  have hkey : hasKey (fetched_data net url league data_type)
      (("error_code").toList) = true := by
    rw [hdata, hasKey]
    simp
  have hone : ∀ c : Cache,
      isNoneV (get_cached c (get_filename_str root league data_type url)) = true →
      get_cached_url net c url league data_type (some root) =
        ⟨fetched_data net url league data_type, c, true⟩ := by
    intro c hm
    rw [get_cached_url, if_neg hempty, hm, if_pos rfl, fetch_and_store, hkey, if_pos rfl]
  rw [hone cache hmiss]
  refine ⟨hdata, rfl, rfl, ?_⟩
  rw [show (FetchResult.mk (fetched_data net url league data_type) cache true).cache =
    cache from rfl, hone cache hmiss]

/-- Witness for C1 at concrete inputs: a 500 response through the gateway. -/
theorem c1_witness :
    (get_cached_url (fun _ => ⟨500, PyVal.none⟩) []
      (("u").toList) (("nba").toList) (("scoreboard").toList)
      (some (("cache").toList))).data =
      PyVal.dict [(("error_code").toList, PyVal.num 500),
        (("error_msg").toList, PyVal.str (("URL Error").toList))]
    ∧ (get_cached_url (fun _ => ⟨500, PyVal.none⟩) []
      (("u").toList) (("nba").toList) (("scoreboard").toList)
      (some (("cache").toList))).cache = []
    ∧ (get_cached_url (fun _ => ⟨500, PyVal.none⟩) []
      (("u").toList) (("nba").toList) (("scoreboard").toList)
      (some (("cache").toList))).networkUsed = true := by
  have h := c1_error_payload_not_cached (fun _ => ⟨500, PyVal.none⟩) []
    (("u").toList) (("nba").toList) (("scoreboard").toList) (("cache").toList)
    (by decide) (by decide) (by rw [get_cached, lookupC]; rfl)
  refine ⟨?_, h.2.1, h.2.2.1⟩
  rw [h.1]
  rfl

/-! ## Cache mapper lemmas (C3 and C4) -/

theorem dir_path_of_eq (r l t : List Char) : dir_path_of r l t =
    ((if r.getLast? = some '/' then r else r ++ [('/' : Char)]) ++
      ("/").toList ++ l ++ ("/").toList ++ t) ++ [('/' : Char)] := rfl

/-- A suffix containing no `/` that survives an append over a block ending
in `/` must lie entirely inside the right part. -/
theorem hasSuffixL_append_slash {p b : List Char} (A : List Char) (hp : '/' ∉ p)
    (h : hasSuffixL p ((A ++ [('/' : Char)]) ++ b) = true) :
    hasSuffixL p b = true := by
  unfold hasSuffixL at h ⊢
  rw [List.reverse_append] at h
  rcases (hasPrefixL_append_iff p.reverse b.reverse
      ((A ++ [('/' : Char)]).reverse)).1 h with ⟨_, h2⟩ | ⟨h1, _, h3⟩
  · exact h2
  · exfalso
    rw [List.reverse_append] at h3
    cases hq : p.reverse.drop b.reverse.length with
    | nil =>
      have := List.length_drop b.reverse.length p.reverse
      rw [hq] at this
      simp at this
      simp at h1
      omega
    | cons e q' =>
      rw [hq] at h3
      rw [show ((([('/' : Char)]).reverse) ++ A.reverse : List Char) =
        '/' :: A.reverse from rfl] at h3
      rw [hasPrefixL_cons_cons, Bool.and_eq_true, beq_iff_eq] at h3
      have he : e ∈ p := by
        have : e ∈ p.reverse.drop b.reverse.length := by rw [hq]; simp
        have := List.mem_of_mem_drop this
        simpa using this
      rw [h3.1] at he
      exact hp he

theorem hasPrefixL_map_eq (f : Char → Char) (p s : List Char)
    (hfix : ∀ c ∈ p, f c = c) (hinj : ∀ c d, c ∈ p → f d = c → d = c) :
    hasPrefixL p (s.map f) = hasPrefixL p s := by
  induction p generalizing s with
  | nil => simp [hasPrefixL]
  | cons c q ih =>
    cases s with
    | nil => simp [hasPrefixL]
    | cons d s' =>
      rw [List.map_cons, hasPrefixL_cons_cons, hasPrefixL_cons_cons]
      rw [ih s' (fun x hx => hfix x (List.mem_cons_of_mem _ hx))
        (fun x y hx => hinj x y (List.mem_cons_of_mem _ hx))]
      have hhead : (c == f d) = (c == d) := by
        by_cases hcd : c = d
        · subst hcd
          rw [hfix c (List.mem_cons_self c q)]
        · have : ¬(c = f d) := fun hc =>
            hcd ((hinj c d (List.mem_cons_self c q) hc.symm).symm)
          simp [hcd, this]
      rw [hhead]

/-- Replacing `/` by `|` does not change whether a string ends with an
extension containing neither character. -/
theorem hasSuffixL_pyReplace {ext : List Char} (u : List Char)
    (h1 : '/' ∉ ext) (h2 : '|' ∉ ext) :
    hasSuffixL ext (pyReplace u) = hasSuffixL ext u := by
  unfold hasSuffixL pyReplace
  rw [← List.map_reverse]
  exact hasPrefixL_map_eq _ ext.reverse u.reverse
    (fun c hc => by
      have hc' : c ∈ ext := by simpa using hc
      have hcs : c ≠ '/' := fun he => h1 (he ▸ hc')
      simp [hcs])
    (fun c d hc hd => by
      have hc' : c ∈ ext := by simpa using hc
      by_cases hds : d = '/'
      · subst hds
        simp at hd
        exact absurd (hd ▸ hc') h2
      · simpa [hds] using hd)

theorem pyReplace_inj {u₁ u₂ : List Char} (h1 : '|' ∉ u₁) (h2 : '|' ∉ u₂)
    (h : pyReplace u₁ = pyReplace u₂) : u₁ = u₂ := by
  have unrep : ∀ u : List Char, '|' ∉ u →
      (pyReplace u).map (fun c => if c = '|' then '/' else c) = u := by
    intro u hu
    rw [pyReplace, List.map_map]
    have : ∀ a ∈ u, ((fun c => if c = '|' then '/' else c) ∘
        (fun c => if c = '/' then '|' else c)) a = a := by
      intro a ha
      have ha' : a ≠ '|' := fun he => hu (he ▸ ha)
      by_cases has : a = '/'
      · subst has
        simp
      · simp [has, ha']
    rw [List.map_congr_left this]
    simp
  rw [← unrep u₁ h1, ← unrep u₂ h2, h]

theorem get_filename_str_suffix (r l t u : List Char) :
    hasSuffixL ('.' :: create_filename_ext l t)
      (get_filename_str r l t u) = true := by
  rw [get_filename_str]
  split
  · assumption
  · exact hasSuffixL_self_append _ _

theorem not_suffix_both_html_json (s : List Char)
    (h1 : hasSuffixL ((".html").toList) s = true)
    (h2 : hasSuffixL ((".json").toList) s = true) : False := by
  unfold hasSuffixL at h1 h2
  rw [show (((".html").toList).reverse : List Char) = 'l' :: ("mth.").toList from by
    decide] at h1
  rw [show (((".json").toList).reverse : List Char) = 'n' :: ("osj.").toList from by
    decide] at h2
  obtain ⟨t1, ht1⟩ := hasPrefixL_cons_head h1
  obtain ⟨t2, ht2⟩ := hasPrefixL_cons_head h2
  rw [ht1] at ht2
  injection ht2 with hc _
  exact absurd hc (by decide)

/-- C3: the cache filename replaces every `/` of the URL by the sentinel
`|`, ends in `.html` exactly when the league is an HTML-boxscore league and
the resource kind is boxscore and in `.json` in every other case, and the
extension is not appended again when the name already ends with it. -/
theorem c3_filename_extension (cached_json_path league data_type url : List Char) :
    (hasSuffixL ((".html").toList)
        (get_filename_str cached_json_path league data_type url) = true
      ↔ (league ∈ get_html_boxscore_leagues ∧ data_type = ("boxscore").toList))
    ∧ (hasSuffixL ((".json").toList)
        (get_filename_str cached_json_path league data_type url) = true
      ↔ ¬(league ∈ get_html_boxscore_leagues ∧ data_type = ("boxscore").toList))
    ∧ (∀ c ∈ pyReplace url, c ≠ '/')
    ∧ (hasSuffixL ('.' :: create_filename_ext league data_type)
        (dir_path_of cached_json_path league data_type ++ pyReplace url) = true →
      get_filename_str cached_json_path league data_type url =
        dir_path_of cached_json_path league data_type ++ pyReplace url) := by
  have hsuf := get_filename_str_suffix cached_json_path league data_type url
  refine ⟨?_, ?_, ?_, ?_⟩
  · by_cases hh : league ∈ get_html_boxscore_leagues ∧ data_type = ("boxscore").toList
    · rw [create_filename_ext, if_pos hh] at hsuf
      rw [show ('.' :: ("html").toList : List Char) = (".html").toList from rfl] at hsuf
      exact ⟨fun _ => hh, fun _ => hsuf⟩
    · rw [create_filename_ext, if_neg hh] at hsuf
      rw [show ('.' :: ("json").toList : List Char) = (".json").toList from rfl] at hsuf
      exact ⟨fun hht => (not_suffix_both_html_json _ hht hsuf).elim,
        fun hht => (hh hht).elim⟩
  · by_cases hh : league ∈ get_html_boxscore_leagues ∧ data_type = ("boxscore").toList
    · rw [create_filename_ext, if_pos hh] at hsuf
      rw [show ('.' :: ("html").toList : List Char) = (".html").toList from rfl] at hsuf
      exact ⟨fun hjs => (not_suffix_both_html_json _ hsuf hjs).elim,
        fun hnot => (hnot hh).elim⟩
    · rw [create_filename_ext, if_neg hh] at hsuf
      rw [show ('.' :: ("json").toList : List Char) = (".json").toList from rfl] at hsuf
      exact ⟨fun _ => hh, fun _ => hsuf⟩
  · intro c hc
    rw [pyReplace] at hc
    obtain ⟨x, hx, hfx⟩ := List.mem_map.1 hc
    by_cases hxs : x = '/'
    · rw [if_pos hxs] at hfx
      rw [← hfx]
      decide
    · rw [if_neg hxs] at hfx
      rw [← hfx]
      exact hxs
  · intro h
    rw [get_filename_str, if_pos h]

/-- Witness for C3 at concrete inputs: an nhl boxscore filename ends in
`.html`, an nba boxscore filename ends in `.json`. -/
theorem c3_witness :
    hasSuffixL ((".html").toList) (get_filename_str (("c").toList) (("nhl").toList)
      (("boxscore").toList) (("u").toList)) = true
    ∧ hasSuffixL ((".json").toList) (get_filename_str (("c").toList) (("nba").toList)
      (("boxscore").toList) (("u").toList)) = true := by
  constructor
  · exact (c3_filename_extension (("c").toList) (("nhl").toList)
      (("boxscore").toList) (("u").toList)).1.mpr (by decide)
  · exact (c3_filename_extension (("c").toList) (("nba").toList)
      (("boxscore").toList) (("u").toList)).2.1.mpr (by decide)

/-- C4 counterexample: the claim's injectivity fails on the code — two
distinct URLs for the same league and resource kind map to the same cache
path, because `url.replace('/', '|')` conflates `/` with a literal `|`. -/
theorem c4_counterexample :
    (get_filename [] (("cache").toList) (("nba").toList) (("scoreboard").toList)
      (("a/b").toList)).1 =
    (get_filename [] (("cache").toList) (("nba").toList) (("scoreboard").toList)
      (("a|b").toList)).1
    ∧ (("a/b").toList : List Char) ≠ (("a|b").toList) := by
  exact ⟨rfl, by decide⟩

/-- C4 (amended): the cache path function is deterministic — the returned
path does not depend on the filesystem state, re-invoking after the
directory was created returns the identical path, and the function is total
(never raises) — and it is injective on (league, resourceKind, url) for
URLs that contain no sentinel `|` and do not already end in the computed
extension. -/
theorem c4_path_deterministic_injective
    (dirs₁ dirs₂ : List (List Char)) (root league data_type u₁ u₂ : List Char) :
    (get_filename dirs₁ root league data_type u₁).1 =
      (get_filename dirs₂ root league data_type u₁).1
    ∧ (get_filename ((get_filename dirs₁ root league data_type u₁).2)
        root league data_type u₁).1 =
      (get_filename dirs₁ root league data_type u₁).1
    ∧ ('|' ∉ u₁ → '|' ∉ u₂ →
      hasSuffixL ('.' :: create_filename_ext league data_type) u₁ = false →
      hasSuffixL ('.' :: create_filename_ext league data_type) u₂ = false →
      (get_filename dirs₁ root league data_type u₁).1 =
        (get_filename dirs₂ root league data_type u₂).1 →
      u₁ = u₂) := by
  refine ⟨rfl, rfl, ?_⟩
  intro h1 h2 hs1 hs2 heq
  have hnoslash : '/' ∉ ('.' :: create_filename_ext league data_type) := by
    rw [create_filename_ext]
    split
    · decide
    · decide
  have hnobar : '|' ∉ ('.' :: create_filename_ext league data_type) := by
    rw [create_filename_ext]
    split
    · decide
    · decide
  have hbase : ∀ u, '|' ∉ u →
      hasSuffixL ('.' :: create_filename_ext league data_type) u = false →
      get_filename_str root league data_type u =
        (dir_path_of root league data_type ++ pyReplace u) ++
          ('.' :: create_filename_ext league data_type) := by
    intro u hu hsu
    rw [get_filename_str, if_neg ?_]
    intro hcon
    rw [dir_path_of_eq] at hcon
    rw [show (((if root.getLast? = some '/' then root else root ++ [('/' : Char)]) ++
      ("/").toList ++ league ++ ("/").toList ++ data_type) ++ [('/' : Char)]) ++
      pyReplace u =
      (((if root.getLast? = some '/' then root else root ++ [('/' : Char)]) ++
      ("/").toList ++ league ++ ("/").toList ++ data_type) ++ [('/' : Char)]) ++
      pyReplace u from rfl] at hcon
    have := hasSuffixL_append_slash _ hnoslash hcon
    rw [hasSuffixL_pyReplace u hnoslash hnobar] at this
    rw [hsu] at this
    exact absurd this (by simp)
  have heq' : (get_filename_str root league data_type u₁ : List Char) =
      get_filename_str root league data_type u₂ := heq
  rw [hbase u₁ h1 hs1, hbase u₂ h2 hs2] at heq'
  have hmid := List.append_cancel_right heq'
  have hrep := List.append_cancel_left hmid
  exact pyReplace_inj h1 h2 hrep

/-- Witness for C4 at concrete inputs. -/
theorem c4_witness :
    (get_filename [] (("cache").toList) (("nba").toList) (("scoreboard").toList)
      (("u").toList)).1 =
    (get_filename [(("d").toList)] (("cache").toList) (("nba").toList)
      (("scoreboard").toList) (("u").toList)).1
    ∧ (("ab").toList : List Char) = (("ab").toList) := by
  refine ⟨(c4_path_deterministic_injective [] [(("d").toList)] (("cache").toList)
    (("nba").toList) (("scoreboard").toList) (("u").toList) (("u").toList)).1, ?_⟩
  exact (c4_path_deterministic_injective [] [] (("cache").toList)
    (("nba").toList) (("scoreboard").toList) (("ab").toList) (("ab").toList)).2.2
    (by decide) (by decide) (by decide) (by decide) rfl

/-! ## URL decoding lemmas (C5) -/

/-- A successful `find?` returns an element of the list satisfying the
predicate whose index is minimal among all satisfying elements. -/
theorem find?_first_index (p : List Char → Bool)
    (l : List (List Char)) (a : List Char) (h : l.find? p = some a) :
    a ∈ l ∧ p a = true ∧
      ∀ b ∈ l, p b = true → l.indexOf a ≤ l.indexOf b := by
  induction l with
  | nil => simp [List.find?] at h
  | cons x t ih =>
    cases hx : p x with
    | true =>
      rw [List.find?_cons_of_pos t hx] at h
      injection h with h
      subst h
      refine ⟨List.mem_cons_self x t, hx, ?_⟩
      intro b _ _
      rw [List.indexOf_cons, beq_self_eq_true]
      exact Nat.zero_le _
    | false =>
      rw [List.find?_cons_of_neg t (by simp [hx])] at h
      obtain ⟨ha, hpa, hmin⟩ := ih h
      have hax : x ≠ a := fun he => by rw [he, hpa] at hx; cases hx
      refine ⟨List.mem_cons_of_mem _ ha, hpa, ?_⟩
      intro b hb hpb
      rcases List.mem_cons.1 hb with hb | hb
      · subst hb
        rw [hpb] at hx
        cases hx
      · have hbx : x ≠ b := fun he => by rw [he, hpb] at hx; cases hx
        rw [List.indexOf_cons, beq_false_of_ne hax,
          List.indexOf_cons, beq_false_of_ne hbx]
        exact Nat.succ_le_succ (hmin b hb hpb)

/-- League extraction on a well-formed site URL `BASE_URL ++ "/" ++ league ++ tail`:
the first `.com/` occurrence ends the host, and the league is the path
segment up to the next `/` (or the whole remainder when the tail is empty). -/
theorem get_league_spec (league tail : List Char)
    (hl : containsSub [('/' : Char)] league = false)
    (ht : containsSub ((".com/").toList) (league ++ tail) = false)
    (htail : tail = [] ∨ ∃ t', tail = '/' :: t') :
    get_league_from_url (BASE_URL ++ [('/' : Char)] ++ (league ++ tail)) = league := by
  rw [get_league_from_url]
  rw [show (BASE_URL ++ [('/' : Char)] : List Char) =
    ("https://www.espn").toList ++ ((".com/").toList) from by decide]
  rw [@pySplit_boundary ((".com/").toList) (("https://www.espn").toList)
    (league ++ tail) (by decide) (by decide)]
  rw [pySplit_no_occurrence ht]
  show (pySplit (("/").toList) (league ++ tail)).getD 0 [] = league
  rw [show ((("/").toList) : List Char) = [('/' : Char)] from rfl]
  rcases htail with rfl | ⟨t', rfl⟩
  · rw [List.append_nil, pySplit_no_occurrence hl]
    rfl
  · rw [show league ++ ('/' :: t') = league ++ [('/' : Char)] ++ t' from by simp]
    rw [pySplit_single_append, pySplit_no_occurrence hl]
    rfl

/-- Example URL from the specification. -/
def exampleURL : List Char :=
  ("https://www.espn.com/nba/scoreboard/_/date/20230115?xhr=1").toList

/-- C5: resource-kind decoding is substring matching against the fixed kind
set in a fixed priority order with the first match winning, raising when no
kind matches; the league is read as the path segment after the host marker;
on the example URL this yields scoreboard and nba. -/
theorem c5_decode_url (url : List Char) :
    ((∀ k ∈ valid_data_types, containsSub k url = false) ↔
      get_data_type_from_url url = Except.error ("Unknown data_type for url"))
    ∧ (∀ k, get_data_type_from_url url = Except.ok k →
        k ∈ valid_data_types ∧ containsSub k url = true ∧
        ∀ k' ∈ valid_data_types, containsSub k' url = true →
          valid_data_types.indexOf k ≤ valid_data_types.indexOf k')
    ∧ get_data_type_from_url exampleURL = Except.ok (("scoreboard").toList)
    ∧ get_league_from_url exampleURL = ("nba").toList := by
  refine ⟨?_, ?_, ?_, ?_⟩
  · constructor
    · intro h
      rw [get_data_type_from_url]
      rw [show valid_data_types.find? (fun t => containsSub t url) = Option.none from by
        rw [List.find?_eq_none]
        intro k hk
        simp [h k hk]]
    · intro h k hk
      rw [get_data_type_from_url] at h
      cases hf : valid_data_types.find? (fun t => containsSub t url) with
      | none =>
        have := List.find?_eq_none.1 hf k hk
        simpa using this
      | some t => rw [hf] at h; cases h
  · intro k h
    rw [get_data_type_from_url] at h
    cases hf : valid_data_types.find? (fun t => containsSub t url) with
    | none => rw [hf] at h; cases h
    | some t =>
      rw [hf] at h
      injection h with h
      subst h
      obtain ⟨h1, h2, h3⟩ := find?_first_index _ _ _ hf
      exact ⟨h1, h2, fun k' hk' hck' => h3 k' hk' hck'⟩
  · rfl
  · rw [show exampleURL = BASE_URL ++ [('/' : Char)] ++
      (("nba").toList ++ ("/scoreboard/_/date/20230115?xhr=1").toList) from by decide]
    exact get_league_spec (("nba").toList)
      (("/scoreboard/_/date/20230115?xhr=1").toList) (by decide) (by decide)
      (Or.inr ⟨("scoreboard/_/date/20230115?xhr=1").toList, by decide⟩)

/-- Witness for C5: the first-match specification applied at the example
URL. -/
theorem c5_witness :
    (("scoreboard").toList) ∈ valid_data_types ∧
      containsSub (("scoreboard").toList) exampleURL = true := by
  have h := (c5_decode_url exampleURL).2.1 (("scoreboard").toList)
    ((c5_decode_url exampleURL).2.2.1)
  exact ⟨h.1, h.2.1⟩

/-! ## Season enumeration lemmas (C8) -/

theorem length_flatMap_const {α β : Type} (l : List α) (f : α → List β) (k : Nat)
    (h : ∀ x ∈ l, (f x).length = k) : (l.flatMap f).length = l.length * k := by
  induction l with
  | nil => simp
  | cons x t ih =>
    rw [List.flatMap_cons, List.length_append, h x (List.mem_cons_self x t),
      ih (fun y hy => h y (List.mem_cons_of_mem _ hy)), List.length_cons]
    ring

theorem day_urls_length (fmt : Int → List Char) (league : List Char) (d : Int) :
    (day_scoreboard_urls fmt league d).length =
      (if league = ("ncb").toList then 4
       else if league = ("ncw").toList then 3 else 1) := by
  rw [day_scoreboard_urls]
  split_ifs <;> simp [get_ncb_groups, get_ncw_groups]

theorem all_urls_flatMap (fmt : Int → List Char) (league : List Char) :
    ∀ (n : Nat) (startD endD : Int), (endD - startD).toNat = n →
      get_all_scoreboard_urls_date fmt league startD endD =
        (List.range n).flatMap
          (fun i => day_scoreboard_urls fmt league (startD + (i : Int))) := by
  intro n
  induction n with
  | zero =>
    intro s e h
    rw [get_all_scoreboard_urls_date, dif_neg (by omega)]
    simp
  | succ n ih =>
    intro s e h
    rw [get_all_scoreboard_urls_date, dif_pos (by omega)]
    rw [ih (s + 1) e (by omega)]
    rw [List.range_succ_eq_map, List.flatMap_cons, List.flatMap_map]
    have h0 : s + ((0 : Nat) : Int) = s := by simp
    rw [h0]
    have hfun : (fun i : Nat => day_scoreboard_urls fmt league (s + ((i + 1 : Nat) : Int))) =
        (fun i : Nat => day_scoreboard_urls fmt league ((s + 1) + (i : Int))) := by
      funext i
      have : s + ((i + 1 : Nat) : Int) = (s + 1) + (i : Int) := by push_cast; ring
      rw [this]
    rw [show (fun i : Nat => day_scoreboard_urls fmt league
        (s + (((fun x : Nat => x + 1) i : Nat) : Int))) =
      (fun i : Nat => day_scoreboard_urls fmt league (s + ((i + 1 : Nat) : Int))) from rfl]
    rw [hfun]

/-- C8: for a date league and day-granularity season window, the enumeration
emits exactly one block of URLs per calendar day of the half-open window
`[startD, endD)`, each block holding one URL per required group (one
ungrouped URL for leagues without groups), so the total count is the number
of days times the group count. -/
theorem c8_all_scoreboard_urls_date (fmt : Int → List Char) (league : List Char)
    (startD endD : Int) :
    get_all_scoreboard_urls_date fmt league startD endD =
      (List.range (endD - startD).toNat).flatMap
        (fun i => day_scoreboard_urls fmt league (startD + (i : Int)))
    ∧ (∀ d : Int, (day_scoreboard_urls fmt league d).length =
        (if league = ("ncb").toList then 4
         else if league = ("ncw").toList then 3 else 1))
    ∧ (get_all_scoreboard_urls_date fmt league startD endD).length =
        (endD - startD).toNat *
          (if league = ("ncb").toList then 4
           else if league = ("ncw").toList then 3 else 1) := by
  refine ⟨all_urls_flatMap fmt league _ startD endD rfl, day_urls_length fmt league, ?_⟩
  rw [all_urls_flatMap fmt league _ startD endD rfl]
  rw [length_flatMap_const _ _
    (if league = ("ncb").toList then 4
     else if league = ("ncw").toList then 3 else 1)
    (fun i _ => day_urls_length fmt league _)]
  rw [List.length_range]

/-- Witness for C8 at concrete inputs: a 183-day window with three groups
(ncw) yields 549 URLs. -/
theorem c8_witness :
    (get_all_scoreboard_urls_date intToChars (("ncw").toList) 0 183).length = 549 := by
  rw [(c8_all_scoreboard_urls_date intToChars (("ncw").toList) 0 183).2.2]
  decide

/-! ## Current-scoreboard lemmas (C7) -/

theorem foldl_append_gen {α β : Type} (h : α → List β) (l : List α)
    (f : List β → α → List β) (hf : ∀ acc x, f acc x = acc ++ h x) :
    ∀ init : List β, l.foldl f init = init ++ l.flatMap h := by
  induction l with
  | nil => intro init; simp
  | cons x t ih =>
    intro init
    rw [List.foldl_cons, hf, ih, List.flatMap_cons, List.append_assoc]

theorem flatMap_ite_filter {α β : Type} (p : α → Prop) [DecidablePred p]
    (f : α → List β) (l : List α) :
    l.flatMap (fun e => if p e then f e else []) =
      (l.filter (fun e => decide (p e))).flatMap f := by
  induction l with
  | nil => rfl
  | cons x t ih =>
    by_cases hx : p x
    · rw [List.flatMap_cons, if_pos hx, List.filter_cons,
        if_pos (by simpa using hx), List.flatMap_cons, ih]
    · rw [List.flatMap_cons, if_neg hx, List.filter_cons,
        if_neg (by simpa using hx), ih]
      simp

/-- Per-entry contribution of the week-league loop body. -/
def week_entry_urls (dt : PyDT) (league : List Char) (stv : Int)
    (e : CalendarEntry) : List (List Char) :=
  if e.startDate ≤ dt.ts ∧ dt.ts ≤ e.endDate then
    if league = ("ncf").toList then
      get_ncf_groups.map (fun g =>
        make_week_url league (guess_season_year dt) stv e.value (some g))
    else
      [make_week_url league (guess_season_year dt) stv e.value Option.none]
  else []

/-- Per-season-type contribution of the week-league loop body. -/
def week_season_urls (dt : PyDT) (league : List Char) (stv : Int) :
    Option (List CalendarEntry) → List (List Char)
  | Option.none => []
  | some es => es.flatMap (week_entry_urls dt league stv)

theorem current_week_flatMap (dt : PyDT) (calendar : List SeasonType)
    (league : List Char) :
    get_current_scoreboard_urls_week dt calendar league =
      calendar.flatMap (fun st => week_season_urls dt league st.value st.entries) := by
  rw [get_current_scoreboard_urls_week]
  rw [foldl_append_gen (fun st => week_season_urls dt league st.value st.entries)
    calendar _ ?_ []]
  · simp
  · intro acc st
    simp only []
    cases hst : st.entries with
    | none => rw [week_season_urls]; simp
    | some es =>
      simp only []
      rw [week_season_urls]
      rw [foldl_append_gen (week_entry_urls dt league st.value) es _ ?_ acc]
      intro acc2 e
      rw [week_entry_urls]
      by_cases hc : e.startDate ≤ dt.ts ∧ dt.ts ≤ e.endDate
      · rw [if_pos hc, if_pos hc]
        by_cases hn : league = ("ncf").toList
        · rw [if_pos hn, if_pos hn]
        · rw [if_neg hn, if_neg hn]
      · rw [if_neg hc, if_neg hc]
        simp

/-- C7: the week-league current-scoreboard enumeration guesses the season
year as the previous calendar year exactly when the instant's month is at
most 2, and emits — per season-type calendar block with entries, per entry
whose declared window contains the instant with an inclusive upper bound —
one URL per required group (one ungrouped URL for leagues without groups),
keeping every match with no deduplication. -/
theorem c7_current_scoreboard_week (dt : PyDT) (calendar : List SeasonType)
    (league : List Char) :
    get_current_scoreboard_urls_week dt calendar league =
      calendar.flatMap (fun st =>
        match st.entries with
        | Option.none => []
        | some es =>
          (es.filter (fun e => decide (e.startDate ≤ dt.ts ∧ dt.ts ≤ e.endDate))).flatMap
            (fun e =>
              if league = ("ncf").toList then
                get_ncf_groups.map (fun g => make_week_url league
                  (if dt.month ≤ 2 then dt.year - 1 else dt.year) st.value e.value (some g))
              else
                [make_week_url league (if dt.month ≤ 2 then dt.year - 1 else dt.year)
                  st.value e.value Option.none]))
    ∧ (∀ st ∈ calendar, ∀ es, st.entries = some es → ∀ e ∈ es,
        e.startDate ≤ dt.ts → dt.ts = e.endDate →
        make_week_url league (if dt.month ≤ 2 then dt.year - 1 else dt.year)
          st.value e.value (if league = ("ncf").toList then some 80 else Option.none)
          ∈ get_current_scoreboard_urls_week dt calendar league) := by
  have hyear : guess_season_year dt = (if dt.month ≤ 2 then dt.year - 1 else dt.year) := by
    rw [guess_season_year]
    split_ifs <;> omega
  have hmain : get_current_scoreboard_urls_week dt calendar league =
      calendar.flatMap (fun st =>
        match st.entries with
        | Option.none => []
        | some es =>
          (es.filter (fun e => decide (e.startDate ≤ dt.ts ∧ dt.ts ≤ e.endDate))).flatMap
            (fun e =>
              if league = ("ncf").toList then
                get_ncf_groups.map (fun g => make_week_url league
                  (if dt.month ≤ 2 then dt.year - 1 else dt.year) st.value e.value (some g))
              else
                [make_week_url league (if dt.month ≤ 2 then dt.year - 1 else dt.year)
                  st.value e.value Option.none])) := by
    rw [current_week_flatMap]
    congr 1
    funext st
    cases hst : st.entries with
    | none => rw [week_season_urls]
    | some es =>
      rw [week_season_urls]
      simp only []
      rw [← flatMap_ite_filter]
      congr 1
      funext e
      rw [week_entry_urls, hyear]
  refine ⟨hmain, ?_⟩
  intro st hst es hes e he h1 h2
  rw [hmain]
  rw [List.mem_flatMap]
  refine ⟨st, hst, ?_⟩
  rw [hes]
  rw [List.mem_flatMap]
  refine ⟨e, ?_, ?_⟩
  · rw [List.mem_filter]
    exact ⟨he, by simp [h1, h2.symm.le, h2.le]⟩
  · by_cases hn : league = ("ncf").toList
    · rw [if_pos hn, if_pos hn]
      rw [List.mem_map]
      exact ⟨80, by rw [get_ncf_groups]; simp, rfl⟩
    · rw [if_neg hn, if_neg hn]
      simp

/-- Witness for C7 at a concrete calendar whose entry window upper bound
equals the reference instant. -/
theorem c7_witness :
    make_week_url (("nfl").toList) 2023 2 5
        (if (("nfl").toList : List Char) = ("ncf").toList then some 80 else Option.none)
      ∈ get_current_scoreboard_urls_week ⟨2023, 10, 100⟩
        [⟨2, some [⟨5, 50, 100⟩]⟩] (("nfl").toList) := by
  have h := (c7_current_scoreboard_week ⟨2023, 10, 100⟩
    [⟨2, some [⟨5, 50, 100⟩]⟩] (("nfl").toList)).2
    ⟨2, some [⟨5, 50, 100⟩]⟩ (by simp) [⟨5, 50, 100⟩] rfl ⟨5, 50, 100⟩ (by simp)
    (by norm_num) (by norm_num)
  simpa using h

/-! ## Round-trip lemmas (C9) -/

/-- A date string without `/` keeps `.com/` out of `date ++ "?xhr=1"`. -/
theorem com_free_dateflag (date : List Char) (hd1 : ('/' : Char) ∉ date) :
    containsSub ((".com/").toList) (date ++ ("?xhr=1").toList) = false := by
  apply containsSub_append_false
  · exact containsSub_eq_false_of_mem (show ('/' : Char) ∈ (".com/").toList by decide) hd1
  · decide
  · intro n h1 h2 _
    have hb : ∀ m, m < 5 → 0 < m →
        hasPrefixL ((((".com/").toList)).drop m) (("?xhr=1").toList) = false := by decide
    have hlen : (((".com/").toList)).length = 5 := by decide
    exact hb n (by omega) h1

/-- A concrete block that neither contains `.com/` nor ends in a prefix of
it keeps `.com/` out of the block followed by `date ++ "?xhr=1"`. -/
theorem com_free_tail (A date : List Char)
    (hA : containsSub ((".com/").toList) A = false)
    (hstrA : ∀ n, n < 5 → 0 < n →
      hasSuffixL ((((".com/").toList)).take n) A = false)
    (hd1 : ('/' : Char) ∉ date) :
    containsSub ((".com/").toList) (A ++ (date ++ ("?xhr=1").toList)) = false := by
  apply containsSub_append_false
  · exact hA
  · exact com_free_dateflag date hd1
  · intro n h1 h2 h3
    have hlen : (((".com/").toList)).length = 5 := by decide
    rw [hstrA n (by omega) h1] at h3
    exact absurd h3 (by simp)

/-- Same, with a decimal group number and a `/date/` block between the
concrete block and the date. -/
theorem com_free_group_tail (A : List Char) (g : Int) (date : List Char)
    (hA : containsSub ((".com/").toList) A = false)
    (hstrA : ∀ n, n < 5 → 0 < n →
      hasSuffixL ((((".com/").toList)).take n) A = false)
    (hd1 : ('/' : Char) ∉ date) :
    containsSub ((".com/").toList)
      (A ++ (intToChars g ++ ((("/date/").toList) ++ (date ++ ("?xhr=1").toList)))) =
      false := by
  have hlen : (((".com/").toList)).length = 5 := by decide
  apply containsSub_append_false
  · exact hA
  · apply containsSub_append_false
    · apply containsSub_eq_false_of_mem (show ('/' : Char) ∈ (".com/").toList by decide)
      intro hmem
      have := intToChars_mem g '/' hmem
      revert this
      decide
    · apply containsSub_append_false
      · decide
      · exact com_free_dateflag date hd1
      · intro n h1 h2 h3
        have hb : ∀ m, m < 5 → 0 < m →
            hasSuffixL ((((".com/").toList)).take m) (("/date/").toList) = false := by
          decide
        rw [hb n (by omega) h1] at h3
        exact absurd h3 (by simp)
    · intro n h1 h2 h3
      have hdot : ∀ m, m < 5 → 0 < m → ('.' : Char) ∈ (((".com/").toList)).take m := by
        decide
      have := hasSuffixL_mem h3 '.' (hdot n (by omega) h1)
      exact absurd (intToChars_mem g '.' this) (by decide)
  · intro n h1 h2 h3
    rw [hstrA n (by omega) h1] at h3
    exact absurd h3 (by simp)

/-- Date extraction for the non-nhl scoreboard URL shape: the text after
the last `/` up to the `?`. -/
theorem date_extract_nonNhl (u A date : List Char)
    (hu : u = A ++ [('/' : Char)] ++ (date ++ ("?xhr=1").toList))
    (hd1 : ('/' : Char) ∉ date) (hd2 : ('?' : Char) ∉ date)
    (hleague : get_league_from_url u ≠ ("nhl").toList) :
    get_date_from_scoreboard_url u = date := by
  rw [get_date_from_scoreboard_url, if_neg hleague, hu]
  rw [show ((("/").toList) : List Char) = [('/' : Char)] from rfl]
  rw [pySplit_single_append]
  have hys : containsSub [('/' : Char)] (date ++ ("?xhr=1").toList) = false := by
    apply containsSub_eq_false_of_mem (List.mem_singleton_self '/')
    intro hmem
    rcases List.mem_append.1 hmem with hmem | hmem
    · exact hd1 hmem
    · revert hmem; decide
  rw [pySplit_no_occurrence hys, getLastD_append_singleton]
  rw [show (date ++ ("?xhr=1").toList : List Char) =
    date ++ [('?' : Char)] ++ ("xhr=1").toList from by simp]
  rw [show ((("?").toList) : List Char) = [('?' : Char)] from rfl]
  rw [pySplit_single_append]
  rw [pySplit_no_occurrence
    (containsSub_eq_false_of_mem (List.mem_singleton_self '?') hd2)]
  rfl

/-- Round trip for the nhl URL shape. -/
theorem roundtrip_nhl (date : List Char) (hd1 : ('/' : Char) ∉ date)
    (hd2 : ('?' : Char) ∉ date) (hd3 : ('&' : Char) ∉ date) :
    get_league_from_url (BASE_URL ++ [('/' : Char)] ++
        (("nhl").toList ++ (("/scoreboard?date=").toList ++ date))) = ("nhl").toList
    ∧ get_date_from_scoreboard_url (BASE_URL ++ [('/' : Char)] ++
        (("nhl").toList ++ (("/scoreboard?date=").toList ++ date))) = date := by
  have hcom : containsSub ((".com/").toList)
      (("nhl").toList ++ (("/scoreboard?date=").toList ++ date)) = false := by
    apply containsSub_append_false
    · decide
    · apply containsSub_append_false
      · decide
      · exact containsSub_eq_false_of_mem
          (show ('/' : Char) ∈ (".com/").toList by decide) hd1
      · intro n h1 h2 h3
        have hb : ∀ m, m < 5 → 0 < m →
            hasSuffixL ((((".com/").toList)).take m) (("/scoreboard?date=").toList) =
              false := by decide
        have hlen : (((".com/").toList)).length = 5 := by decide
        rw [hb n (by omega) h1] at h3
        exact absurd h3 (by simp)
    · intro n h1 h2 h3
      have hb : ∀ m, m < 5 → 0 < m →
          hasSuffixL ((((".com/").toList)).take m) (("nhl").toList) = false := by decide
      have hlen : (((".com/").toList)).length = 5 := by decide
      rw [hb n (by omega) h1] at h3
      exact absurd h3 (by simp)
  have hlg : get_league_from_url (BASE_URL ++ [('/' : Char)] ++
      (("nhl").toList ++ (("/scoreboard?date=").toList ++ date))) = ("nhl").toList := by
    apply get_league_spec
    · decide
    · exact hcom
    · exact Or.inr ⟨("scoreboard?date=").toList ++ date, rfl⟩
  refine ⟨hlg, ?_⟩
  rw [get_date_from_scoreboard_url, if_pos hlg]
  have hform : BASE_URL ++ [('/' : Char)] ++
      (("nhl").toList ++ (("/scoreboard?date=").toList ++ date)) =
      ("https://www.espn.com/nhl/scoreboard").toList ++ ("?date=").toList ++ date := by
    rw [show (("nhl").toList ++ ((("/scoreboard?date=").toList) ++ date) : List Char) =
      ((("nhl").toList ++ ("/scoreboard?date=").toList) ++ date) from
      (List.append_assoc _ _ _).symm]
    rw [← List.append_assoc]
    congr 1
  rw [hform]
  rw [@pySplit_boundary (("?date=").toList)
    (("https://www.espn.com/nhl/scoreboard").toList) date (by decide) (by decide)]
  rw [pySplit_no_occurrence (containsSub_eq_false_of_mem
    (show ('?' : Char) ∈ ("?date=").toList by decide) hd2)]
  show (pySplit (("&").toList) date).getD 0 [] = date
  rw [show ((("&").toList) : List Char) = [('&' : Char)] from rfl]
  rw [pySplit_no_occurrence
    (containsSub_eq_false_of_mem (List.mem_singleton_self '&') hd3)]
  rfl

/-- Round trip for the non-nhl date-scoreboard URL shapes (with and without
a group), generic in the league. -/
theorem roundtrip_nonNhl (league date : List Char) (group : Option Int)
    (hlg : containsSub [('/' : Char)] league = false)
    (hnhl : league ≠ ("nhl").toList)
    (hA1 : containsSub ((".com/").toList)
      (league ++ ("/scoreboard/_/date/").toList) = false)
    (hA1s : ∀ n, n < 5 → 0 < n → hasSuffixL (((".com/").toList).take n)
      (league ++ ("/scoreboard/_/date/").toList) = false)
    (hA2 : containsSub ((".com/").toList)
      (league ++ ("/scoreboard/_/group/").toList) = false)
    (hA2s : ∀ n, n < 5 → 0 < n → hasSuffixL (((".com/").toList).take n)
      (league ++ ("/scoreboard/_/group/").toList) = false)
    (hd1 : ('/' : Char) ∉ date) (hd2 : ('?' : Char) ∉ date) :
    get_league_from_url (make_date_url league date group) = league
    ∧ get_date_from_scoreboard_url (make_date_url league date group) = date := by
  cases group with
  | none =>
    rw [show make_date_url league date Option.none =
      BASE_URL ++ [('/' : Char)] ++ (league ++ ((("/scoreboard/_/date/").toList) ++
        (date ++ ("?xhr=1").toList))) from by
        rw [make_date_url.eq_def, if_neg hnhl]
        simp [List.append_assoc]]
    have hcom : containsSub ((".com/").toList)
        (league ++ ((("/scoreboard/_/date/").toList) ++ (date ++ ("?xhr=1").toList))) =
        false := by
      rw [show (league ++ ((("/scoreboard/_/date/").toList) ++
        (date ++ ("?xhr=1").toList)) : List Char) =
        (league ++ ("/scoreboard/_/date/").toList) ++ (date ++ ("?xhr=1").toList) from
        (List.append_assoc _ _ _).symm]
      exact com_free_tail _ date hA1 hA1s hd1
    have hlgres := get_league_spec league ((("/scoreboard/_/date/").toList) ++
      (date ++ ("?xhr=1").toList)) hlg hcom
      (Or.inr ⟨("scoreboard/_/date/").toList ++ (date ++ ("?xhr=1").toList), rfl⟩)
    refine ⟨hlgres, ?_⟩
    apply date_extract_nonNhl _
      (BASE_URL ++ [('/' : Char)] ++ (league ++ (("/scoreboard/_/date").toList))) date
    · rw [show ((("/scoreboard/_/date/").toList) : List Char) =
        ("/scoreboard/_/date").toList ++ [('/' : Char)] from by decide]
      simp [List.append_assoc]
    · exact hd1
    · exact hd2
    · rw [hlgres]; exact hnhl
  | some g =>
    rw [show make_date_url league date (some g) =
      BASE_URL ++ [('/' : Char)] ++ (league ++ ((("/scoreboard/_/group/").toList) ++
        (intToChars g ++ ((("/date/").toList) ++ (date ++ ("?xhr=1").toList))))) from by
        rw [make_date_url.eq_def, if_neg hnhl]
        simp [List.append_assoc]]
    have hcom : containsSub ((".com/").toList)
        (league ++ ((("/scoreboard/_/group/").toList) ++
          (intToChars g ++ ((("/date/").toList) ++ (date ++ ("?xhr=1").toList))))) =
        false := by
      rw [show (league ++ ((("/scoreboard/_/group/").toList) ++
        (intToChars g ++ ((("/date/").toList) ++ (date ++ ("?xhr=1").toList)))) :
          List Char) =
        (league ++ ("/scoreboard/_/group/").toList) ++
          (intToChars g ++ ((("/date/").toList) ++ (date ++ ("?xhr=1").toList))) from by
        simp [List.append_assoc]]
      exact com_free_group_tail _ g date hA2 hA2s hd1
    have hlgres := get_league_spec league ((("/scoreboard/_/group/").toList) ++
      (intToChars g ++ ((("/date/").toList) ++ (date ++ ("?xhr=1").toList)))) hlg hcom
      (Or.inr ⟨("scoreboard/_/group/").toList ++
        (intToChars g ++ ((("/date/").toList) ++ (date ++ ("?xhr=1").toList))), rfl⟩)
    refine ⟨hlgres, ?_⟩
    apply date_extract_nonNhl _
      (BASE_URL ++ [('/' : Char)] ++ (league ++ ((("/scoreboard/_/group/").toList) ++
        (intToChars g ++ (("/date").toList))))) date
    · rw [show ((("/date/").toList) : List Char) =
        ("/date").toList ++ [('/' : Char)] from by decide]
      simp [List.append_assoc]
    · exact hd1
    · exact hd2
    · rw [hlgres]; exact hnhl

/-- C9: for every date league, date string free of `/`, `?` and `&`, and
optional group, decoding the URL built by the date-scoreboard builder
recovers exactly the league and the date. -/
theorem c9_roundtrip (league date : List Char) (group : Option Int)
    (hleague : league ∈ get_date_leagues)
    (hd1 : ('/' : Char) ∉ date) (hd2 : ('?' : Char) ∉ date)
    (hd3 : ('&' : Char) ∉ date) :
    ∀ u, get_date_scoreboard_url league date group = Except.ok u →
      get_league_from_url u = league ∧ get_date_from_scoreboard_url u = date := by
  intro u hu
  rw [get_date_scoreboard_url, if_pos hleague] at hu
  injection hu with hu
  subst hu
  have hmem : league = ("mlb").toList ∨ league = ("nba").toList ∨
      league = ("ncb").toList ∨ league = ("ncw").toList ∨
      league = ("wnba").toList ∨ league = ("nhl").toList := by
    simpa [get_date_leagues] using hleague
  rcases hmem with rfl | rfl | rfl | rfl | rfl | rfl
  · exact roundtrip_nonNhl _ date group (by decide) (by decide) (by decide)
      (by decide) (by decide) (by decide) hd1 hd2
  · exact roundtrip_nonNhl _ date group (by decide) (by decide) (by decide)
      (by decide) (by decide) (by decide) hd1 hd2
  · exact roundtrip_nonNhl _ date group (by decide) (by decide) (by decide)
      (by decide) (by decide) (by decide) hd1 hd2
  · exact roundtrip_nonNhl _ date group (by decide) (by decide) (by decide)
      (by decide) (by decide) (by decide) hd1 hd2
  · exact roundtrip_nonNhl _ date group (by decide) (by decide) (by decide)
      (by decide) (by decide) (by decide) hd1 hd2
  · rw [show make_date_url (("nhl").toList) date group =
      BASE_URL ++ [('/' : Char)] ++ (("nhl").toList ++
        ((("/scoreboard?date=").toList) ++ date)) from by
        rw [make_date_url.eq_def, if_pos rfl]
        simp [List.append_assoc]]
    exact roundtrip_nhl date hd1 hd2 hd3

/-- Witness for C9 at concrete inputs. -/
theorem c9_witness :
    get_league_from_url (make_date_url (("nba").toList) (("20230115").toList)
      Option.none) = ("nba").toList
    ∧ get_date_from_scoreboard_url (make_date_url (("nba").toList)
      (("20230115").toList) Option.none) = ("20230115").toList := by
  exact c9_roundtrip (("nba").toList) (("20230115").toList) Option.none
    (by decide) (by decide) (by decide) (by decide)
    (make_date_url (("nba").toList) (("20230115").toList) Option.none)
    (by rw [get_date_scoreboard_url, if_pos (by decide)])

end EspnScraper
